import Mathlib

/-!
Verification development for the wow-actuality-agent-bot repository.

Shallow embedding of the core pipeline components:
- the article chunker (`crawler-service/src/infrastructure/chroma_vector_store.py`),
- the vector-store store/update paths (same file),
- the retrieval ranker and query expander
  (`api-service/src/infrastructure/chroma_repository.py`),
- the confidence calculator and answer generator fallbacks
  (`api-service/src/infrastructure/gemini_repository.py`,
   `api-service/src/infrastructure/litellm_repository.py`),
- the crawl orchestrator (`crawler-service/src/application/use_cases.py`),
- the file cache (`crawler-service/src/infrastructure/file_cache.py`).

Python strings are modelled as `List Char`; machine floats are modelled as
exact rationals; fallible operations return `Option`/`Except`; the
chunker's while-loop is modelled with explicit fuel (the fuel-sufficiency
theorem is the termination statement).
-/

namespace WowBot

/-- Python whitespace predicate (`str.isspace` characters used by `strip`/`split`). -/
def pyIsSpace (c : Char) : Bool :=
  c == ' ' || c == '\t' || c == '\n' || c == '\x0d' || c == '\x0b' || c == '\x0c'

/-- Python `str.strip()`: drop whitespace from both ends. -/
def pyStrip (s : List Char) : List Char :=
  ((s.dropWhile pyIsSpace).reverse.dropWhile pyIsSpace).reverse

/-- Python slice `s[a:b]` for `0 <= a <= b` (clamped at the right end). -/
def pySlice (s : List Char) (a b : Nat) : List Char :=
  (s.drop a).take (b - a)

/-- Python `s.rfind(' ', lo, hi)`: the largest index in `[lo, hi)` holding a
space character, `none` when there is no such index (Python returns -1). -/
def pyRfindSpace (s : List Char) (lo hi : Nat) : Option Nat :=
  (((List.range' lo (hi - lo)).filter (fun i => s.getD i 'x' == ' ')).getLast?)

/-- Lowercasing used by the query expander (`query.lower()`). -/
def toLowerLC (s : List Char) : List Char := s.map Char.toLower

end WowBot

namespace WowBot

/-- Metadata attached to a stored document, modelling the Python metadata
dicts built in `chroma_vector_store.py`; absent keys are `none`. -/
structure DocMeta where
  title : List Char
  url : String
  author : String
  category : String
  published_date : String
  discovered_date : String
  tags : String
  summary : List Char
  article_id : Option String
  chunk_type : Option String
  chunk_index : Option Nat
  start_pos : Option Nat
  end_pos : Option Nat
  last_updated : Option String
deriving Repr, DecidableEq

/-- A document stored in the ChromaDB collection: id, text, metadata.
Chunks produced by `_create_article_chunks` have exactly this shape. -/
structure Chunk where
  id : String
  text : List Char
  meta : DocMeta
deriving Repr, DecidableEq

/-- The crawler-side article entity (`WoWArticle`), with the fields the
vector-store path reads. -/
structure WoWArticle where
  id : String
  title : List Char
  content : List Char
  summary : Option (List Char)
  url : String
  author : Option String
  category : Option String
  published_date : String
  discovered_date : String
  tags : String
deriving Repr, DecidableEq

/-- The `base_metadata` dict of `_create_article_chunks`. -/
def baseMetadata (a : WoWArticle) : DocMeta where
  title := a.title
  url := a.url
  author := a.author.getD "Unknown"
  category := a.category.getD "World of Warcraft"
  published_date := a.published_date
  discovered_date := a.discovered_date
  tags := a.tags
  summary := a.summary.getD []
  article_id := some a.id
  chunk_type := none
  chunk_index := none
  start_pos := none
  end_pos := none
  last_updated := none

def nl2 : List Char := ['\n', '\n']

/-- The `title_summary` chunk emitted first by `_create_article_chunks`. -/
def titleChunk (a : WoWArticle) : Chunk where
  id := a.id ++ "_title"
  text := a.title ++ nl2 ++ a.summary.getD []
  meta := { baseMetadata a with chunk_type := some "title_summary" }

def chunkSize : Nat := 1500
def overlapSize : Nat := 300

/-- End position of the sliding window starting at `startPos`:
`min(start+chunk_size, len)`, retracted to the last space found in the
100-character lookback when that space lies beyond half the chunk size. -/
def windowEnd (content : List Char) (startPos : Nat) : Nat :=
  let end0 := min (startPos + chunkSize) content.length
  if end0 < content.length then
    match pyRfindSpace content (end0 - 100) end0 with
    | some lastSpace =>
        if startPos + chunkSize / 2 < lastSpace then lastSpace else end0
    | none => end0
  else end0

/-- One content chunk record of `_create_article_chunks`. -/
def mkContentChunk (a : WoWArticle) (idx startPos endPos : Nat)
    (chunkText : List Char) : Chunk where
  id := a.id ++ "_content_" ++ toString idx
  text := a.title ++ nl2 ++ chunkText
  meta := { baseMetadata a with
              chunk_type := some "content"
              chunk_index := some idx
              start_pos := some startPos
              end_pos := some endPos }

/-- The chunker's while-loop (`while start_pos < len(content)`), with
explicit fuel; `none` means the fuel ran out (never happens for fuel
greater than the remaining length, see `contentLoop_total`). -/
def contentLoop (a : WoWArticle) (content : List Char) :
    Nat → Nat → Nat → Option (List Chunk)
  | 0, _, _ => none
  | fuel + 1, startPos, chunkCount =>
    if startPos < content.length then
      let endPos := windowEnd content startPos
      let chunkText := pyStrip (pySlice content startPos endPos)
      if chunkText.isEmpty then
        if content.length ≤ endPos then some []
        else contentLoop a content fuel
               (max (startPos + chunkSize - overlapSize) (endPos - overlapSize))
               chunkCount
      else
        let c := mkContentChunk a (chunkCount + 1) startPos endPos chunkText
        if content.length ≤ endPos then some [c]
        else (contentLoop a content fuel
               (max (startPos + chunkSize - overlapSize) (endPos - overlapSize))
               (chunkCount + 1)).map (c :: ·)
    else some []

/-- The full `_create_article_chunks`: title chunk first, then the content
window chunks over the stripped body. -/
def createArticleChunks (a : WoWArticle) : Option (List Chunk) :=
  let content := pyStrip a.content
  if content.isEmpty then some [titleChunk a]
  else (contentLoop a content (content.length + 1) 0 0).map (titleChunk a :: ·)

/-- Whether a content chunk's recorded offset range covers position `p`. -/
def coversB (c : Chunk) (p : Nat) : Bool :=
  match c.meta.start_pos, c.meta.end_pos with
  | some a, some b => a ≤ p && p < b
  | _, _ => false

end WowBot

namespace WowBot

/-- Body text with a 3000-space run between two letters. -/
def gapC : List Char := 'a' :: (List.replicate 3000 ' ' ++ ['b'])

/-- Concrete article whose body has a 3000-space run: windows that fall
entirely inside the run strip to empty and are skipped. -/
def gapArticle : WoWArticle where
  id := "g"
  title := "T".toList
  content := gapC
  summary := none
  url := "u"
  author := none
  category := none
  published_date := "p"
  discovered_date := "d"
  tags := ""

/-- Concrete article whose body is non-empty but whitespace-only. -/
def wsArticle : WoWArticle where
  id := "w"
  title := "T".toList
  content := [' ']
  summary := none
  url := "u"
  author := none
  category := none
  published_date := "p"
  discovered_date := "d"
  tags := ""

/-- Metadata dict built by `update_article` for the single upserted
document (note `article_id` is absent and `last_updated` present,
unlike the chunk metadata). -/
def updateMetadata (a : WoWArticle) : DocMeta where
  title := a.title
  url := a.url
  author := a.author.getD "Unknown"
  category := a.category.getD "World of Warcraft"
  published_date := a.published_date
  discovered_date := a.discovered_date
  tags := a.tags
  summary := a.summary.getD []
  article_id := none
  chunk_type := none
  chunk_index := none
  start_pos := none
  end_pos := none
  last_updated := some a.discovered_date

/-- The single full-document entry `update_article` upserts:
`f"{article.title}\n\n{article.content}"` keyed by the bare article id. -/
def updateDoc (a : WoWArticle) : Chunk where
  id := a.id
  text := a.title ++ nl2 ++ a.content
  meta := updateMetadata a

/-- `collection.add` with a batch of documents. -/
def collectionAdd (coll : List Chunk) (docs : List Chunk) : List Chunk :=
  coll ++ docs

/-- `collection.upsert` with a single document: replace the entry whose id
matches, append when no entry matches. -/
def collectionUpsert (coll : List Chunk) (d : Chunk) : List Chunk :=
  if coll.any (fun e => e.id == d.id) then
    coll.map (fun e => if e.id == d.id then d else e)
  else coll ++ [d]

/-- `store_article`: chunk the article, then batch-add all chunks (the
`if chunks:` guard skips the add for an empty chunk list). -/
def storeArticle (coll : List Chunk) (a : WoWArticle) : Option (List Chunk) :=
  (createArticleChunks a).map (fun chunks =>
    if chunks.isEmpty then coll else collectionAdd coll chunks)

/-- `update_article`: upsert of the single full-document representation. -/
def updateArticle (coll : List Chunk) (a : WoWArticle) : List Chunk :=
  collectionUpsert coll (updateDoc a)

/-- `mark_url_processed` of the file cache: load the set, add, save. -/
def markUrlProcessed (cache : Finset String) (url : String) : Finset String :=
  insert url cache

/-- Retrieval-time document (`VectorDocument`), with the metadata entries
the pipeline reads; an absent dict key is `none`. -/
structure RDoc where
  id : String
  content : String
  url : Option String
  title : Option String
  similarity : Option ℚ
  matchedQuery : Option String
deriving Repr, DecidableEq

/-- Python banker's rounding (round-half-to-even) to an integer. -/
def roundHalfEven (x : ℚ) : ℤ :=
  if x - ⌊x⌋ < 1/2 then ⌊x⌋
  else if 1/2 < x - ⌊x⌋ then ⌊x⌋ + 1
  else if ⌊x⌋ % 2 = 0 then ⌊x⌋ else ⌊x⌋ + 1

/-- Python `round(x, 2)`. -/
def round2 (x : ℚ) : ℚ := (roundHalfEven (100 * x) : ℚ) / 100

/-- `_calculate_confidence` (identical in the Gemini and LiteLLM backends). -/
def calculateConfidence (documents : List RDoc) (question : List Char) : ℚ :=
  if documents.isEmpty then 1/10
  else
    let similarity_scores := documents.map (fun d => d.similarity.getD (1/2))
    let avg_similarity :=
      if similarity_scores.isEmpty then 1/2
      else similarity_scores.sum / similarity_scores.length
    let doc_count_factor := min ((documents.length : ℚ) / 3) 1
    let question_factor := min ((question.length : ℚ) / 30) 1
    round2 (min (avg_similarity * (6/10) + doc_count_factor * (3/10)
      + question_factor * (1/10)) (95/100))

/-- The confidence formula as worded by the spec: 0.6 * average similarity
score (default 0.5) + 0.3 * min(doc_count/3, 1) + 0.1 *
min(question_length/30, 1), clamped to at most 0.95, rounded to two
decimals; 0.1 flat when no context documents were supplied. -/
def specConfidence (documents : List RDoc) (question : List Char) : ℚ :=
  if documents = [] then 1/10
  else round2 (min ((6/10) * ((documents.map (fun d => d.similarity.getD (1/2))).sum
      / documents.length)
    + (3/10) * min ((documents.length : ℚ) / 3) 1
    + (1/10) * min ((question.length : ℚ) / 30) 1) (95/100))

/-- A document carrying an explicit similarity score of 0. -/
def zeroScoreDoc : RDoc := ⟨"d0", "c", none, none, some 0, none⟩

/-- A document carrying an explicit negative similarity score. -/
def negScoreDoc : RDoc := ⟨"d1", "c", none, none, some (-10), none⟩

/-- The `AIResponse` value constructed by the answer generators. -/
structure AIResponse where
  content : String
  source_articles : List String
  confidence : ℚ
deriving Repr, DecidableEq

/-- Source-article provenance list: URL (or title, or "Document {id}") of
every context document whose similarity score (default 0) exceeds the
backend's inclusion threshold. -/
def sourceArticlesOf (threshold : ℚ) (docs : List RDoc) : List String :=
  (docs.filter (fun d => threshold < d.similarity.getD 0)).map
    (fun d => d.url.getD (d.title.getD ("Document " ++ d.id)))

def litellmDefaultMsg : String :=
  "I'm sorry, I'm having trouble processing your question right now. Please try again in a moment."

def litellmTimeoutMsg : String :=
  "The request is taking too long to process. Please try again."

def litellmSecurityMsg : String :=
  "I cannot process this request due to security policy restrictions. Please rephrase your question."

def litellmRateMsg : String :=
  "I'm currently handling too many requests. Please try again in a moment."

/-- `_fallback_response(message=None)` of the LiteLLM repository. -/
def fallbackResponse (message : Option String) : AIResponse :=
  ⟨message.getD litellmDefaultMsg, [], 0⟩

/-- Outcome of the HTTP call to the LiteLLM gateway, as distinguished by
the except clauses of `generate_response`. -/
inductive GatewayOutcome where
  | ok (content : String)
  | badFormat
  | httpStatus (code : Nat)
  | timeout
  | raises
deriving Repr, DecidableEq

/-- `generate_response` of the LiteLLM repository: success path builds the
answer from the context; each failure mode maps to its fallback. -/
def litellmGenerateResponse (outcome : GatewayOutcome) (question : List Char)
    (docs : List RDoc) : AIResponse :=
  match outcome with
  | .ok content => ⟨content, sourceArticlesOf (1/2) docs, calculateConfidence docs question⟩
  | .badFormat => fallbackResponse none
  | .httpStatus code =>
      if code = 400 then ⟨litellmSecurityMsg, [], 0⟩
      else if code = 429 then ⟨litellmRateMsg, [], 0⟩
      else fallbackResponse none
  | .timeout => fallbackResponse (some litellmTimeoutMsg)
  | .raises => fallbackResponse none

def geminiFallbackMsg : String :=
  "I'm sorry, I'm having trouble processing your question right now. Please try again in a moment."

/-- Outcome of the Gemini model invocation: the single except clause only
distinguishes success from any exception. -/
inductive GeminiOutcome where
  | ok (content : String)
  | raises
deriving Repr, DecidableEq

/-- `generate_response` of the Gemini repository. -/
def geminiGenerateResponse (outcome : GeminiOutcome) (question : List Char)
    (docs : List RDoc) : AIResponse :=
  match outcome with
  | .ok content => ⟨content, sourceArticlesOf (7/10) docs, calculateConfidence docs question⟩
  | .raises => ⟨geminiFallbackMsg, [], 0⟩

/-- Python `str.split()`: split on whitespace runs, dropping empties. -/
def pySplitAux : List Char → List Char → List (List Char)
  | [], acc => if acc.isEmpty then [] else [acc.reverse]
  | c :: cs, acc =>
    if pyIsSpace c then
      if acc.isEmpty then pySplitAux cs [] else acc.reverse :: pySplitAux cs []
    else pySplitAux cs (c :: acc)

def pySplit (s : List Char) : List (List Char) := pySplitAux s []

/-- The fixed French stop-word list of `_enhance_query`. -/
def stopWords : List (List Char) :=
  ["le".toList, "la".toList, "les".toList, "de".toList, "des".toList,
   "du".toList, "sur".toList, "pour".toList, "dans".toList, "avec".toList]

/-- The loop `for word in significant_words: if word not in enhanced:
enhanced.append(word)`. -/
def appendNew (enhanced : List (List Char)) : List (List Char) → List (List Char)
  | [] => enhanced
  | w :: ws =>
    if w ∈ enhanced then appendNew enhanced ws
    else appendNew (enhanced ++ [w]) ws

/-- The final loop of `_enhance_query`: keep an entry when its lowercase
form is unseen and it is not whitespace-only. -/
def dedupCaseInsensitive (seen : List (List Char)) :
    List (List Char) → List (List Char)
  | [] => []
  | item :: rest =>
    if toLowerLC item ∉ seen ∧ ¬(pyStrip item).isEmpty then
      item :: dedupCaseInsensitive (toLowerLC item :: seen) rest
    else dedupCaseInsensitive seen rest

/-- `_enhance_query`: original query, then significant words, then the
stop-word-filtered query; deduplicated case-insensitively, capped at 3. -/
def enhanceQuery (query : List Char) : List (List Char) :=
  let query_words := pySplit (toLowerLC query)
  let significant_words := query_words.filter (fun w => 3 < w.length)
  let enhanced1 := appendNew [query] significant_words
  let filtered_words := query_words.filter (fun w => w ∉ stopWords)
  let enhanced2 :=
    if 1 < filtered_words.length then
      if List.intercalate [' '] filtered_words ∈ enhanced1 then enhanced1
      else enhanced1 ++ [List.intercalate [' '] filtered_words]
    else enhanced1
  (dedupCaseInsensitive [] enhanced2).take 3

/-- A raw ChromaDB hit: document id, text, metadata entries, distance. -/
structure Hit where
  id : String
  content : String
  url : Option String
  title : Option String
  distance : Option ℚ
deriving Repr, DecidableEq

/-- The body of the merge loop of `search_similar`: build one
VectorDocument, adding `similarity_score = 1/(1+distance)` when a distance
is present, and the originating `matched_query`. -/
def tagDoc (usedQuery : List Char) (h : Hit) : RDoc :=
  ⟨h.id, h.content, h.url, h.title,
    h.distance.map (fun d => 1 / (1 + d)), some (String.mk usedQuery)⟩

/-- The sequential search loop over the enhanced queries: an exception
from any single search aborts the whole collection (the enclosing `try`
covers the loop). -/
def collectResults (searchFn : List Char → Except Unit (List Hit)) :
    List (List Char) → Except Unit (List (List Hit × List Char))
  | [] => .ok []
  | q :: qs =>
    match searchFn q with
    | .error e => .error e
    | .ok hits =>
      match collectResults searchFn qs with
      | .error e => .error e
      | .ok rest => .ok ((hits, q) :: rest)

/-- The dedup loop over the concatenated per-query results: skip a
document whose id was already seen, keeping the first occurrence. -/
def dedupById (seen : List String) : List RDoc → List RDoc
  | [] => []
  | d :: ds =>
    if d.id ∈ seen then dedupById seen ds
    else d :: dedupById (d.id :: seen) ds

/-- `metadata.get("similarity_score", 0)`, the sort key of the ranker. -/
def scoreOf (d : RDoc) : ℚ := d.similarity.getD 0

/-- `search_similar`: expand the query, search once per variant, merge and
dedup by id, sort by similarity descending (Python's stable sort with
`reverse=True`), truncate to `k`; any exception yields `[]`. -/
def searchSimilar (searchFn : List Char → Except Unit (List Hit))
    (query : List Char) (k : Nat) : List RDoc :=
  match collectResults searchFn (enhanceQuery query) with
  | .error _ => []
  | .ok pairs =>
    let docs := dedupById [] (pairs.flatMap (fun p => p.1.map (tagDoc p.2)))
    (docs.mergeSort (fun x y => decide (scoreOf y ≤ scoreOf x))).take k

/-- Whether an `Except` result is a success. -/
def exceptOk : Except Unit (List Hit) → Bool
  | .ok _ => true
  | .error _ => false

/-- The hits of a result, empty on error. -/
def hitsOf : Except Unit (List Hit) → List Hit
  | .ok hits => hits
  | .error _ => []

/-- The concatenation, in query order, of every expanded query's tagged
hits (the merged list before deduplication). -/
def allTagged (searchFn : List Char → Except Unit (List Hit))
    (query : List Char) : List RDoc :=
  (enhanceQuery query).flatMap (fun q => (hitsOf (searchFn q)).map (tagDoc q))

/-- A concrete hit used by witnesses. -/
def sampleHit : Hit := ⟨"h1", "c", none, none, some 1⟩

/-- A search function whose "test" variant raises and whose other
variants succeed. -/
def failingSearch (s : List Char) : Except Unit (List Hit) :=
  if s = "test".toList then .error () else .ok [sampleHit]

/-- A search function that always succeeds with one hit. -/
def okSearch (_ : List Char) : Except Unit (List Hit) := .ok [sampleHit]

/-- Outcome of `extract_article_content` for one URL. -/
inductive ExtractOutcome where
  | raises
  | noArticle
  | article (articleUrl : String) (content : List Char)
deriving Repr, DecidableEq

/-- The crawl's collaborators for one run: the extractor and the article
repository lookup (content of any previously saved article by URL). -/
structure CrawlEnv where
  extract : String → ExtractOutcome
  existingContent : String → Option (List Char)

/-- `_process_article_url`: cache re-check, extraction, update/skip/store
classification; every outcome marks the URL, and the enclosing `except`
turns any extraction exception into "failed" after marking. -/
def processArticleUrl (env : CrawlEnv) (cache : Finset String) (url : String) :
    String × Finset String :=
  if url ∈ cache then ("skipped", cache)
  else
    match env.extract url with
    | .raises => ("failed", insert url cache)
    | .noArticle => ("failed", insert url cache)
    | .article aurl content =>
      match env.existingContent aurl with
      | some existing =>
        if existing ≠ content then ("updated", insert url cache)
        else ("skipped", insert url cache)
      | none => ("processed", insert url cache)

/-- The fan-out over the new URLs, modelled sequentially (the service is a
single-process event loop; cache reads/writes are atomic per URL task):
returns per-URL statuses in order and the final cache. -/
def runUrls (env : CrawlEnv) : Finset String → List String → List String × Finset String
  | cache, [] => ([], cache)
  | cache, url :: rest =>
    let r := processArticleUrl env cache url
    let rr := runUrls env r.2 rest
    (r.1 :: rr.1, rr.2)

/-- The aggregate result of `CrawlArticlesUseCase.execute`. -/
structure CrawlResult where
  articles_discovered : Nat
  articles_processed : Nat
  articles_failed : Nat
  articles_updated : Nat
deriving Repr, DecidableEq

/-- `execute` after URL discovery: filter cached URLs, fan out, count the
statuses. -/
def crawlExecute (env : CrawlEnv) (cache : Finset String)
    (articleUrls : List String) : CrawlResult × Finset String :=
  let newUrls := articleUrls.filter (fun u => decide (u ∉ cache))
  let res := runUrls env cache newUrls
  ({ articles_discovered := articleUrls.length
     articles_processed := res.1.count "processed"
     articles_failed := res.1.count "failed"
     articles_updated := res.1.count "updated" }, res.2)

/-- The cache-independent classification of a fresh URL (what
`_process_article_url` returns when the URL is not yet cached). -/
def classifyUrl (env : CrawlEnv) (url : String) : String :=
  match env.extract url with
  | .raises => "failed"
  | .noArticle => "failed"
  | .article aurl content =>
    match env.existingContent aurl with
    | some existing => if existing ≠ content then "updated" else "skipped"
    | none => "processed"

/-- A concrete crawl environment for witnesses: "u2" raises, "u1" is a new
article. -/
def sampleEnv : CrawlEnv where
  extract := fun url =>
    if url = "u2" then .raises else .article url "c".toList
  existingContent := fun _ => none

/-- A small concrete article used by witnesses. -/
def smallArticle : WoWArticle where
  id := "a1"
  title := "T".toList
  content := "hello".toList
  summary := none
  url := "u"
  author := none
  category := none
  published_date := "p"
  discovered_date := "d"
  tags := ""

end WowBot

section ChunkScratch
open WowBot

example : pyStrip "  ab ".toList = "ab".toList := by decide

example : pyRfindSpace " a b".toList 0 4 = some 2 := by decide

example :
    (createArticleChunks smallArticle).map (List.map Chunk.id) =
      some ["a1_title", "a1_content_1"] := by decide

end ChunkScratch

namespace WowBot

theorem pyRfindSpace_bounds {s : List Char} {lo hi j : Nat}
    (h : pyRfindSpace s lo hi = some j) : lo ≤ j ∧ j < hi := by
  unfold pyRfindSpace at h
  rcases List.getLast?_eq_some_iff.1 h with ⟨ys, hys⟩
  have hj : j ∈ (List.range' lo (hi - lo)).filter (fun i => s.getD i 'x' == ' ') := by
    rw [hys]; exact List.mem_append.2 (Or.inr (by simp))
  have hj2 := (List.mem_filter.1 hj).1
  rcases List.mem_range'.1 hj2 with ⟨i, hi1, hi2⟩
  omega

theorem windowEnd_cases (content : List Char) (s : Nat) :
    windowEnd content s ≤ content.length ∧
      (windowEnd content s = content.length ∨
        (s + 1400 ≤ windowEnd content s ∧ windowEnd content s ≤ s + 1500)) := by
  simp only [windowEnd, chunkSize]
  split
  · split
    · rename_i j heq
      have hb := pyRfindSpace_bounds heq
      split
      · constructor
        · omega
        · right; omega
      · constructor
        · omega
        · right; omega
    · constructor
      · omega
      · right; omega
  · constructor
    · omega
    · left; omega

theorem windowEnd_le (content : List Char) (s : Nat) :
    windowEnd content s ≤ content.length :=
  (windowEnd_cases content s).1

theorem windowEnd_gt {content : List Char} {s : Nat} (hs : s < content.length) :
    s < windowEnd content s := by
  rcases windowEnd_cases content s with ⟨h1, h2 | ⟨h2, h3⟩⟩ <;> omega

theorem windowEnd_lower {c : List Char} {s : Nat}
    (hlt : windowEnd c s < c.length) :
    s + 1400 ≤ windowEnd c s := by
  rcases windowEnd_cases c s with ⟨h1, h2 | ⟨h2, h3⟩⟩ <;> omega

theorem forall_dropWhile_iff {α : Type} {p : α → Bool} {l : List α} :
    (∀ x ∈ l.dropWhile p, p x) ↔ ∀ x ∈ l, p x := by
  constructor
  · intro h x hx
    rw [← List.takeWhile_append_dropWhile (p := p) (l := l)] at hx
    rcases List.mem_append.1 hx with h1 | h2
    · exact List.mem_takeWhile_imp h1
    · exact h x h2
  · intro h x hx
    exact h x ((List.dropWhile_sublist p).mem hx)

theorem pyStrip_eq_nil_iff {xs : List Char} :
    pyStrip xs = [] ↔ ∀ c ∈ xs, pyIsSpace c := by
  rw [pyStrip, List.reverse_eq_nil_iff, List.dropWhile_eq_nil_iff]
  simp only [List.mem_reverse]
  exact forall_dropWhile_iff

theorem pyStrip_ne_nil {xs : List Char} {c : Char} (hc : c ∈ xs)
    (hns : pyIsSpace c = false) : pyStrip xs ≠ [] := by
  intro h
  have := pyStrip_eq_nil_iff.1 h c hc
  simp [this] at hns

theorem mem_pySlice {content : List Char} {s e p : Nat} (hsp : s ≤ p)
    (hpe : p < e) (hpl : p < content.length) :
    content.getD p ' ' ∈ pySlice content s e := by
  have h1 : (pySlice content s e)[p - s]? = some (content.getD p ' ') := by
    unfold pySlice
    rw [List.getElem?_take_of_lt (by omega), List.getElem?_drop]
    have hps : s + (p - s) = p := by omega
    rw [hps, List.getElem?_eq_getElem hpl]
    simp [List.getD_eq_getElem?_getD, List.getElem?_eq_getElem hpl]
  exact List.getElem?_mem h1

theorem pyStrip_getLast_not_space {r : List Char} (h : pyStrip r ≠ []) :
    pyIsSpace ((pyStrip r).getD ((pyStrip r).length - 1) ' ') = false := by
  have hzs : ((r.dropWhile pyIsSpace).reverse.dropWhile pyIsSpace) ≠ [] := by
    intro hz
    exact h (by rw [pyStrip, hz, List.reverse_nil])
  have hhead :
      pyIsSpace (((r.dropWhile pyIsSpace).reverse.dropWhile pyIsSpace).head hzs)
        = false :=
    List.head_dropWhile_not pyIsSpace _ hzs
  have hgd : (pyStrip r).getD ((pyStrip r).length - 1) ' '
      = ((r.dropWhile pyIsSpace).reverse.dropWhile pyIsSpace).head hzs := by
    rw [List.getD_eq_getElem?_getD, ← List.getLast?_eq_getElem?]
    rw [pyStrip, List.getLast?_eq_head?_reverse, List.reverse_reverse]
    rw [List.head?_eq_head hzs]
    rfl
  rw [hgd]
  exact hhead

theorem contentLoop_total (a : WoWArticle) (content : List Char) :
    ∀ fuel s count, content.length - s < fuel →
      ∃ cs, contentLoop a content fuel s count = some cs := by
  intro fuel
  induction fuel with
  | zero => intro s count h; omega
  | succ f ih =>
    intro s count h
    rw [contentLoop]
    by_cases hs : s < content.length
    · rw [if_pos hs]
      have h1 := windowEnd_le content s
      by_cases hemp : (pyStrip (pySlice content s (windowEnd content s))).isEmpty
      · rw [if_pos hemp]
        by_cases hend : content.length ≤ windowEnd content s
        · exact ⟨[], by rw [if_pos hend]⟩
        · rw [if_neg hend]
          have h3 := windowEnd_lower (c := content) (s := s) (by omega)
          refine ih _ count ?_
          simp only [chunkSize, overlapSize]
          omega
      · rw [if_neg hemp]
        by_cases hend : content.length ≤ windowEnd content s
        · exact ⟨_, by rw [if_pos hend]⟩
        · rw [if_neg hend]
          have h3 := windowEnd_lower (c := content) (s := s) (by omega)
          obtain ⟨cs, hcs⟩ := ih
            (max (s + chunkSize - overlapSize) (windowEnd content s - overlapSize))
            (count + 1)
            (by simp only [chunkSize, overlapSize]; omega)
          exact ⟨_, by rw [hcs]; rfl⟩
    · exact ⟨[], by rw [if_neg hs]⟩

theorem contentLoop_covers (a : WoWArticle) (content : List Char) :
    ∀ fuel s count cs, contentLoop a content fuel s count = some cs →
      ∀ p, s ≤ p → p < content.length →
        pyIsSpace (content.getD p ' ') = false →
        ∃ c ∈ cs, coversB c p = true := by
  intro fuel
  induction fuel with
  | zero => intro s count cs hcs; simp [contentLoop] at hcs
  | succ f ih =>
    intro s count cs hcs p hsp hpl hns
    rw [contentLoop] at hcs
    dsimp only at hcs
    by_cases hs : s < content.length
    swap
    · omega
    rw [if_pos hs] at hcs
    have h1 := windowEnd_le content s
    by_cases hpe : p < windowEnd content s
    · -- the current window covers p and its chunk is emitted
      have hmem : content.getD p ' ' ∈ pySlice content s (windowEnd content s) :=
        mem_pySlice hsp hpe hpl
      have hne : pyStrip (pySlice content s (windowEnd content s)) ≠ [] :=
        pyStrip_ne_nil hmem hns
      have hempf : (pyStrip (pySlice content s (windowEnd content s))).isEmpty = false :=
        List.isEmpty_eq_false.2 hne
      rw [hempf] at hcs
      simp only [Bool.false_eq_true, if_false] at hcs
      have hcov : coversB
          (mkContentChunk a (count + 1) s (windowEnd content s)
            (pyStrip (pySlice content s (windowEnd content s)))) p = true := by
        simp only [coversB, mkContentChunk]
        simp only [Bool.and_eq_true, decide_eq_true_eq]
        omega
      by_cases hend : content.length ≤ windowEnd content s
      · rw [if_pos hend] at hcs
        cases hcs
        exact ⟨_, List.mem_singleton_self _, hcov⟩
      · rw [if_neg hend] at hcs
        rcases Option.map_eq_some'.1 hcs with ⟨rest, _, hrest⟩
        subst hrest
        exact ⟨_, List.mem_cons_self _ _, hcov⟩
    · -- p lies beyond this window; the loop continues and covers it later
      have hend : ¬ content.length ≤ windowEnd content s := by omega
      have h3 := windowEnd_lower (c := content) (s := s) (by omega)
      have hnext :
          max (s + chunkSize - overlapSize) (windowEnd content s - overlapSize) ≤ p := by
        simp only [chunkSize, overlapSize]
        omega
      by_cases hemp : (pyStrip (pySlice content s (windowEnd content s))).isEmpty
      · rw [if_pos hemp, if_neg hend] at hcs
        exact ih _ _ _ hcs p hnext hpl hns
      · rw [if_neg hemp, if_neg hend] at hcs
        rcases Option.map_eq_some'.1 hcs with ⟨rest, hrest, hcseq⟩
        subst hcseq
        rcases ih _ _ _ hrest p hnext hpl hns with ⟨c, hcmem, hcc⟩
        exact ⟨c, List.mem_cons_of_mem _ hcmem, hcc⟩

theorem contentLoop_chunk_type (a : WoWArticle) (content : List Char) :
    ∀ fuel s count cs, contentLoop a content fuel s count = some cs →
      ∀ c ∈ cs, c.meta.chunk_type = some "content" := by
  intro fuel
  induction fuel with
  | zero => intro s count cs hcs; simp [contentLoop] at hcs
  | succ f ih =>
    intro s count cs hcs c hc
    rw [contentLoop] at hcs
    dsimp only at hcs
    by_cases hs : s < content.length
    swap
    · rw [if_neg hs] at hcs
      cases hcs
      simp at hc
    rw [if_pos hs] at hcs
    by_cases hemp : (pyStrip (pySlice content s (windowEnd content s))).isEmpty
    · rw [if_pos hemp] at hcs
      by_cases hend : content.length ≤ windowEnd content s
      · rw [if_pos hend] at hcs
        cases hcs
        simp at hc
      · rw [if_neg hend] at hcs
        exact ih _ _ _ hcs c hc
    · rw [if_neg hemp] at hcs
      by_cases hend : content.length ≤ windowEnd content s
      · rw [if_pos hend] at hcs
        cases hcs
        rcases List.mem_singleton.1 hc with rfl
        rfl
      · rw [if_neg hend] at hcs
        rcases Option.map_eq_some'.1 hcs with ⟨rest, hrest, hcseq⟩
        subst hcseq
        rcases List.mem_cons.1 hc with rfl | hmem
        · rfl
        · exact ih _ _ _ hrest c hmem

/-- C1 (amended): for every article whose body text contains a
non-whitespace character, the chunker terminates within a linear fuel
bound and produces at least one content chunk, and every non-whitespace
position of the stripped body lies inside some content chunk's
`[start_pos, end_pos)` range. (All-whitespace windows are skipped, so
all-whitespace stretches of the body may be left uncovered; see the
counterexample.) -/
theorem chunker_coverage_c1 (a : WoWArticle) (h : pyStrip a.content ≠ []) :
    ∃ cs, createArticleChunks a = some (titleChunk a :: cs) ∧
      cs ≠ [] ∧
      (∀ c ∈ cs, c.meta.chunk_type = some "content") ∧
      (∀ p, p < (pyStrip a.content).length →
        pyIsSpace ((pyStrip a.content).getD p ' ') = false →
        ∃ c ∈ cs, coversB c p = true) := by
  have hlen : 0 < (pyStrip a.content).length := List.length_pos.2 h
  obtain ⟨cs, hcs⟩ :=
    contentLoop_total a (pyStrip a.content) ((pyStrip a.content).length + 1) 0 0
      (by omega)
  refine ⟨cs, ?_, ?_, contentLoop_chunk_type a _ _ _ _ _ hcs, ?_⟩
  · simp only [createArticleChunks]
    rw [List.isEmpty_eq_false.2 h]
    simp only [Bool.false_eq_true, if_false]
    rw [hcs]
    rfl
  · have hns := pyStrip_getLast_not_space (r := a.content) h
    rcases contentLoop_covers a _ _ _ _ _ hcs ((pyStrip a.content).length - 1)
      (Nat.zero_le _) (by omega) hns with ⟨c, hcmem, _⟩
    exact List.ne_nil_of_mem hcmem
  · intro p hp hns
    exact contentLoop_covers a _ _ _ _ _ hcs p (Nat.zero_le p) hp hns

/-- Witness for C1 at a concrete article with body "hello". -/
theorem chunker_coverage_c1_witness :
    pyStrip smallArticle.content ≠ [] ∧
    (∃ cs, createArticleChunks smallArticle = some (titleChunk smallArticle :: cs) ∧
      cs ≠ [] ∧
      (∀ c ∈ cs, c.meta.chunk_type = some "content") ∧
      (∀ p, p < (pyStrip smallArticle.content).length →
        pyIsSpace ((pyStrip smallArticle.content).getD p ' ') = false →
        ∃ c ∈ cs, coversB c p = true)) :=
  ⟨by decide, chunker_coverage_c1 smallArticle (by decide)⟩

end WowBot

namespace WowBot

theorem gap_len : gapC.length = 3002 := by
  rw [show gapC = 'a' :: (List.replicate 3000 ' ' ++ ['b']) from rfl]
  simp only [List.length_cons, List.length_append, List.length_replicate,
    List.length_nil]

theorem gap_getD {i : Nat} (h1 : 1 ≤ i) (h2 : i ≤ 3000) : gapC.getD i 'x' = ' ' := by
  obtain ⟨j, rfl⟩ : ∃ j, i = j + 1 := ⟨i - 1, by omega⟩
  rw [show gapC = 'a' :: (List.replicate 3000 ' ' ++ ['b']) from rfl, List.getD_cons_succ]
  rw [List.getD_eq_getElem?_getD,
    List.getElem?_append_left (by rw [List.length_replicate]; omega),
    List.getElem?_replicate_of_lt (by omega)]
  rfl

theorem gap_rfind {lo hi : Nat} (h1 : 1 ≤ lo) (h2 : lo < hi) (h3 : hi ≤ 3001) :
    pyRfindSpace gapC lo hi = some (hi - 1) := by
  unfold pyRfindSpace
  have hfil : (List.range' lo (hi - lo)).filter (fun i => gapC.getD i 'x' == ' ')
      = List.range' lo (hi - lo) := by
    refine List.filter_eq_self.2 (fun a ha => ?_)
    rcases List.mem_range'.1 ha with ⟨i, hilt, rfl⟩
    rw [gap_getD (by omega) (by omega)]
    rfl
  rw [hfil, show hi - lo = (hi - lo - 1) + 1 by omega, List.range'_concat,
    List.getLast?_concat]
  congr 1
  omega

end WowBot

namespace WowBot

theorem windowEnd_eq_of_rfind {content : List Char} {s j : Nat}
    (h0 : s + chunkSize < content.length)
    (hr : pyRfindSpace content (s + chunkSize - 100) (s + chunkSize) = some j)
    (hj : s + chunkSize / 2 < j) :
    windowEnd content s = j := by
  unfold windowEnd
  dsimp only
  rw [min_eq_left (le_of_lt h0), if_pos h0, hr]
  dsimp only
  rw [if_pos hj]

theorem windowEnd_eq_of_at_end {content : List Char} {s : Nat}
    (h0 : content.length ≤ s + chunkSize) : windowEnd content s = content.length := by
  unfold windowEnd
  dsimp only
  rw [min_eq_right h0, if_neg (lt_irrefl _)]

theorem gap_w0 : windowEnd gapC 0 = 1499 := by
  refine windowEnd_eq_of_rfind (j := 1499) ?_ ?_ ?_
  · rw [gap_len]; norm_num [chunkSize]
  · rw [show 0 + chunkSize - 100 = 1400 from rfl, show 0 + chunkSize = 1500 from rfl]
    exact gap_rfind (by norm_num) (by norm_num) (by norm_num)
  · norm_num [chunkSize]

theorem gap_w1200 : windowEnd gapC 1200 = 2699 := by
  refine windowEnd_eq_of_rfind (j := 2699) ?_ ?_ ?_
  · rw [gap_len]; norm_num [chunkSize]
  · rw [show 1200 + chunkSize - 100 = 2600 from rfl, show 1200 + chunkSize = 2700 from rfl]
    exact gap_rfind (by norm_num) (by norm_num) (by norm_num)
  · norm_num [chunkSize]

theorem gap_w2400 : windowEnd gapC 2400 = 3002 := by
  rw [windowEnd_eq_of_at_end (by rw [gap_len]; norm_num [chunkSize]), gap_len]

theorem gap_slice0 : pySlice gapC 0 1499 = 'a' :: List.replicate 1498 ' ' := by
  unfold pySlice
  rw [List.drop_zero, show (1499:Nat) - 0 = 1498 + 1 from rfl,
    show gapC = 'a' :: (List.replicate 3000 ' ' ++ ['b']) from rfl,
    List.take_succ_cons,
    List.take_append_of_le_length (by rw [List.length_replicate]; norm_num),
    List.take_replicate]
  norm_num

theorem gap_slice1200 : pySlice gapC 1200 2699 = List.replicate 1499 ' ' := by
  unfold pySlice
  rw [show gapC = 'a' :: (List.replicate 3000 ' ' ++ ['b']) from rfl,
    show (1200:Nat) = 1199 + 1 from rfl, List.drop_succ_cons,
    List.drop_append_of_le_length (by rw [List.length_replicate]; norm_num),
    List.drop_replicate,
    show (2699:Nat) - (1199 + 1) = 1499 from rfl,
    List.take_append_of_le_length (by rw [List.length_replicate]; norm_num),
    List.take_replicate]
  norm_num

theorem gap_slice2400 : pySlice gapC 2400 3002 = List.replicate 601 ' ' ++ ['b'] := by
  unfold pySlice
  rw [show gapC = 'a' :: (List.replicate 3000 ' ' ++ ['b']) from rfl,
    show (2400:Nat) = 2399 + 1 from rfl, List.drop_succ_cons,
    List.drop_append_of_le_length (by rw [List.length_replicate]; norm_num),
    List.drop_replicate,
    show (3000:Nat) - 2399 = 601 from rfl,
    show (3002:Nat) - (2399 + 1) = 602 from rfl]
  refine List.take_of_length_le ?_
  rw [List.length_append, List.length_replicate]
  norm_num

theorem strip_cons_replicate : pyStrip ('a' :: List.replicate 1498 ' ') = ['a'] := by
  unfold pyStrip
  rw [List.dropWhile_cons_of_neg (by decide), List.reverse_cons, List.reverse_replicate,
    List.dropWhile_append_of_pos
      (by intro x hx; rcases List.eq_of_mem_replicate hx with rfl; rfl),
    List.dropWhile_cons_of_neg (by decide)]
  rfl

theorem strip_replicate : pyStrip (List.replicate 1499 ' ') = [] :=
  pyStrip_eq_nil_iff.2 (fun c hc => by rcases List.eq_of_mem_replicate hc with rfl; rfl)

theorem strip_replicate_b : pyStrip (List.replicate 601 ' ' ++ ['b']) = ['b'] := by
  unfold pyStrip
  rw [List.dropWhile_append_of_pos
      (by intro x hx; rcases List.eq_of_mem_replicate hx with rfl; rfl),
    List.dropWhile_cons_of_neg (by decide)]
  rfl

theorem contentLoop_step_emit_end {a : WoWArticle} {content : List Char}
    {fuel s count e : Nat} (hs : s < content.length)
    (he : windowEnd content s = e)
    (hne : (pyStrip (pySlice content s e)).isEmpty = false)
    (hend : content.length ≤ e) :
    contentLoop a content (fuel + 1) s count =
      some [mkContentChunk a (count + 1) s e (pyStrip (pySlice content s e))] := by
  rw [contentLoop]
  dsimp only
  rw [he, if_pos hs, hne]
  simp only [Bool.false_eq_true, if_false, if_pos hend]

theorem contentLoop_step_emit_cont {a : WoWArticle} {content : List Char}
    {fuel s count e : Nat} (hs : s < content.length)
    (he : windowEnd content s = e)
    (hne : (pyStrip (pySlice content s e)).isEmpty = false)
    (hend : ¬ content.length ≤ e) :
    contentLoop a content (fuel + 1) s count =
      (contentLoop a content fuel
          (max (s + chunkSize - overlapSize) (e - overlapSize)) (count + 1)).map
        (mkContentChunk a (count + 1) s e (pyStrip (pySlice content s e)) :: ·) := by
  rw [contentLoop]
  dsimp only
  rw [he, if_pos hs, hne]
  simp only [Bool.false_eq_true, if_false, if_neg hend]

theorem contentLoop_step_skip_cont {a : WoWArticle} {content : List Char}
    {fuel s count e : Nat} (hs : s < content.length)
    (he : windowEnd content s = e)
    (hemp : (pyStrip (pySlice content s e)).isEmpty = true)
    (hend : ¬ content.length ≤ e) :
    contentLoop a content (fuel + 1) s count =
      contentLoop a content fuel
        (max (s + chunkSize - overlapSize) (e - overlapSize)) count := by
  rw [contentLoop]
  dsimp only
  rw [he, if_pos hs, hemp]
  simp only [if_true, if_neg hend]

theorem gap_loop :
    contentLoop gapArticle gapC (gapC.length + 1) 0 0 =
      some [mkContentChunk gapArticle 1 0 1499 ['a'],
            mkContentChunk gapArticle 2 2400 3002 ['b']] := by
  rw [gap_len]
  rw [contentLoop_step_emit_cont (e := 1499)
      (by rw [gap_len]; norm_num) gap_w0
      (by rw [gap_slice0, strip_cons_replicate]; rfl)
      (by rw [gap_len]; norm_num)]
  rw [show (0 + chunkSize - overlapSize) ⊔ (1499 - overlapSize) = 1200 from rfl]
  rw [show (3002:Nat) = 3001 + 1 from rfl]
  rw [contentLoop_step_skip_cont (e := 2699)
      (by rw [gap_len]; norm_num) gap_w1200
      (by rw [gap_slice1200, strip_replicate]; rfl)
      (by rw [gap_len]; norm_num)]
  rw [show (1200 + chunkSize - overlapSize) ⊔ (2699 - overlapSize) = 2400 from rfl]
  rw [show (3001:Nat) = 3000 + 1 from rfl]
  rw [contentLoop_step_emit_end (e := 3002)
      (by rw [gap_len]; norm_num) gap_w2400
      (by rw [gap_slice2400, strip_replicate_b]; rfl)
      (by rw [gap_len])]
  rw [gap_slice0, strip_cons_replicate, gap_slice2400, strip_replicate_b]
  rfl

theorem gap_strip : pyStrip gapC = gapC := by
  unfold pyStrip
  rw [show gapC = 'a' :: (List.replicate 3000 ' ' ++ ['b']) from rfl]
  rw [List.dropWhile_cons_of_neg (by decide)]
  rw [List.reverse_cons, List.reverse_append, List.reverse_replicate,
    show (['b'] : List Char).reverse = ['b'] from rfl, List.append_assoc]
  rw [show (['b'] : List Char) ++ (List.replicate 3000 ' ' ++ ['a'])
      = 'b' :: (List.replicate 3000 ' ' ++ ['a']) from rfl]
  rw [List.dropWhile_cons_of_neg (by decide)]
  rw [List.reverse_cons, List.reverse_append, List.reverse_replicate,
    show (['a'] : List Char).reverse = ['a'] from rfl, List.append_assoc]
  rfl

theorem gap_create :
    createArticleChunks gapArticle =
      some [titleChunk gapArticle,
            mkContentChunk gapArticle 1 0 1499 ['a'],
            mkContentChunk gapArticle 2 2400 3002 ['b']] := by
  unfold createArticleChunks
  dsimp only
  rw [show gapArticle.content = gapC from rfl, gap_strip,
    show gapC.isEmpty = false from rfl]
  simp only [Bool.false_eq_true, if_false]
  rw [gap_loop]
  rfl

/-- Counterexample to C1 as stated: a non-empty but whitespace-only body
yields no content chunk at all, and a body containing a 3000-space run
leaves position 2000 of the (stripped) body covered by no content chunk,
so the chunk ranges do not cover the whole body. -/
theorem chunker_coverage_c1_cex :
    (wsArticle.content ≠ [] ∧
      createArticleChunks wsArticle = some [titleChunk wsArticle]) ∧
    (gapArticle.content ≠ [] ∧
      2000 < (pyStrip gapArticle.content).length ∧
      ∃ cs, createArticleChunks gapArticle = some cs ∧
        ∀ c ∈ cs, coversB c 2000 = false) := by
  refine ⟨⟨by decide, by decide⟩, ?_, ?_, ?_⟩
  · intro h
    have hlen := congrArg List.length h
    rw [show gapArticle.content = gapC from rfl, gap_len] at hlen
    simp at hlen
  · rw [show pyStrip gapArticle.content = pyStrip gapC from rfl, gap_strip, gap_len]
    norm_num
  · refine ⟨_, gap_create, ?_⟩
    intro c hc
    rcases List.mem_cons.1 hc with rfl | hc
    · rfl
    rcases List.mem_cons.1 hc with rfl | hc
    · decide
    rcases List.mem_cons.1 hc with rfl | hc
    · decide
    · simp at hc

end WowBot

namespace WowBot

/-- C8 counterexample: storing `smallArticle` then re-ingesting it via
`update_article` does not reproduce the chunked representation: the old
chunk documents stay and a third, unchunked document is appended. -/
theorem vector_update_c8_cex :
    (storeArticle [] smallArticle).isSome = true ∧
    updateArticle ((storeArticle [] smallArticle).getD []) smallArticle ≠
      (storeArticle [] smallArticle).getD [] := by
  constructor
  · decide
  · decide

/-- C8 (amended): `update_article` performs a single-document upsert keyed
by the bare article id; it never regenerates chunk documents, so every
previously stored document with a different id is kept unchanged and the
only document it can introduce or replace is the full-document entry. -/
theorem vector_update_c8 (coll : List Chunk) (a : WoWArticle) :
    updateDoc a ∈ updateArticle coll a ∧
    (∀ d ∈ coll, d.id ≠ a.id → d ∈ updateArticle coll a) ∧
    (∀ d ∈ updateArticle coll a, d ∈ coll ∨ d = updateDoc a) := by
  unfold updateArticle collectionUpsert
  by_cases h : coll.any (fun e => e.id == (updateDoc a).id)
  · rw [if_pos h]
    refine ⟨?_, ?_, ?_⟩
    · rcases List.any_eq_true.1 h with ⟨e, he, heq⟩
      refine List.mem_map.2 ⟨e, he, ?_⟩
      rw [if_pos heq]
    · intro d hd hne
      refine List.mem_map.2 ⟨d, hd, ?_⟩
      rw [if_neg]
      simp only [beq_iff_eq]
      exact fun hc => hne hc
    · intro d hd
      rcases List.mem_map.1 hd with ⟨e, he, hfe⟩
      by_cases hc : e.id == (updateDoc a).id
      · rw [if_pos hc] at hfe
        exact Or.inr hfe.symm
      · rw [if_neg hc] at hfe
        exact Or.inl (hfe ▸ he)
  · rw [if_neg h]
    refine ⟨List.mem_append.2 (Or.inr (by simp)), ?_, ?_⟩
    · intro d hd _
      exact List.mem_append.2 (Or.inl hd)
    · intro d hd
      rcases List.mem_append.1 hd with h1 | h1
      · exact Or.inl h1
      · exact Or.inr (List.mem_singleton.1 h1)

/-- Witness for the amended C8 at a concrete collection and article. -/
theorem vector_update_c8_witness :
    updateDoc smallArticle ∈ updateArticle [] smallArticle :=
  (vector_update_c8 [] smallArticle).1

/-- C9: marking a URL processed twice leaves the cached set equal to
marking it once, its size unchanged, and `contains` true afterwards. -/
theorem cache_idempotent_c9 (cache : Finset String) (url : String) :
    markUrlProcessed (markUrlProcessed cache url) url = markUrlProcessed cache url ∧
    (markUrlProcessed (markUrlProcessed cache url) url).card =
      (markUrlProcessed cache url).card ∧
    url ∈ markUrlProcessed (markUrlProcessed cache url) url := by
  refine ⟨Finset.insert_idem url cache, ?_, Finset.mem_insert_self url _⟩
  unfold markUrlProcessed
  rw [Finset.insert_idem]

end WowBot

namespace WowBot

example : calculateConfidence [zeroScoreDoc] [] = 1/10 := by
  norm_num [calculateConfidence, round2, roundHalfEven, zeroScoreDoc, min_def]
example : calculateConfidence [negScoreDoc] [] < 0 := by
  norm_num [calculateConfidence, round2, roundHalfEven, negScoreDoc, min_def]
example : calculateConfidence [] ['a'] = 1/10 := by
  norm_num [calculateConfidence]

theorem roundHalfEven_nonneg {x : ℚ} (h : 0 ≤ x) : 0 ≤ roundHalfEven x := by
  have hf : (0:ℤ) ≤ ⌊x⌋ := Int.floor_nonneg.2 h
  unfold roundHalfEven
  split
  · exact_mod_cast hf
  · split
    · omega
    · split <;> omega

theorem roundHalfEven_le {x : ℚ} {n : ℤ} (h : x ≤ (n : ℚ)) : roundHalfEven x ≤ n := by
  have hf : ⌊x⌋ ≤ n := by
    calc ⌊x⌋ ≤ ⌊(n : ℚ)⌋ := Int.floor_le_floor h
    _ = n := Int.floor_intCast n
  have hr0 : (0:ℚ) ≤ x - ⌊x⌋ := by
    have := Int.floor_le x
    linarith
  unfold roundHalfEven
  split
  · exact hf
  · rename_i h1
    have hlt : ⌊x⌋ < n := by
      rcases lt_or_eq_of_le hf with h2 | h2
      · exact h2
      · exfalso
        apply h1
        have hx : x = (n : ℚ) := le_antisymm h (by
          have := Int.floor_le x
          rw [h2] at this
          exact this)
        rw [hx, Int.floor_intCast]
        norm_num
    split
    · omega
    · split <;> omega

theorem round2_nonneg {x : ℚ} (h : 0 ≤ x) : 0 ≤ round2 x := by
  unfold round2
  apply div_nonneg _ (by norm_num)
  exact_mod_cast roundHalfEven_nonneg (by nlinarith)

theorem round2_le_95 {x : ℚ} (h : x ≤ 95/100) : round2 x ≤ 95/100 := by
  unfold round2
  have h95 : roundHalfEven (100 * x) ≤ (95:ℤ) := roundHalfEven_le (by push_cast; linarith)
  have : ((roundHalfEven (100 * x) : ℤ) : ℚ) ≤ 95 := by exact_mod_cast h95
  linarith

/-- C3 (amended): the confidence equals the spec formula
round(min(0.6*avg + 0.3*min(n/3,1) + 0.1*min(len/30,1), 0.95), 2); it lies
in [0, 0.95] whenever every document's similarity score (default 0.5) is
non-negative, and it equals 0.1 when the document list is empty (a
non-empty list can also produce 0.1 or, with negative scores, values
below 0). -/
theorem confidence_c3 (documents : List RDoc) (question : List Char)
    (hscore : ∀ d ∈ documents, 0 ≤ d.similarity.getD (1/2)) :
    calculateConfidence documents question = specConfidence documents question ∧
    0 ≤ calculateConfidence documents question ∧
    calculateConfidence documents question ≤ 95/100 ∧
    (documents = [] → calculateConfidence documents question = 1/10) := by
  by_cases hd : documents = []
  · subst hd
    exact ⟨rfl, by norm_num [calculateConfidence], by norm_num [calculateConfidence],
      fun _ => rfl⟩
  · have hne : documents.isEmpty = false := by simp [hd]
    have hsne : (documents.map (fun d => d.similarity.getD (1/2))).isEmpty = false := by
      simp [List.isEmpty_eq_false, hd]
    have h1 : (0:ℚ) ≤ (documents.map (fun d => d.similarity.getD (1/2))).sum /
        ((documents.map (fun d => d.similarity.getD (1/2))).length : ℚ) := by
      apply div_nonneg _ (Nat.cast_nonneg _)
      apply List.sum_nonneg
      intro x hx
      rcases List.mem_map.1 hx with ⟨d, hdm, rfl⟩
      exact hscore d hdm
    have h2 : (0:ℚ) ≤ min ((documents.length : ℚ) / 3) 1 :=
      le_min (by positivity) (by norm_num)
    have h3 : (0:ℚ) ≤ min ((question.length : ℚ) / 30) 1 :=
      le_min (by positivity) (by norm_num)
    have hx0 : (0:ℚ) ≤ min
        ((if ((documents.map (fun d => d.similarity.getD (1/2))).isEmpty = true) then (1:ℚ)/2
          else (documents.map (fun d => d.similarity.getD (1/2))).sum /
            ((documents.map (fun d => d.similarity.getD (1/2))).length : ℚ)) * (6/10)
          + (min ((documents.length : ℚ) / 3) 1) * (3/10)
          + (min ((question.length : ℚ) / 30) 1) * (1/10)) (95/100) := by
      rw [hsne]
      simp only [Bool.false_eq_true, if_false]
      refine le_min ?_ (by norm_num)
      have := mul_nonneg h1 (by norm_num : (0:ℚ) ≤ 6/10)
      have := mul_nonneg h2 (by norm_num : (0:ℚ) ≤ 3/10)
      have := mul_nonneg h3 (by norm_num : (0:ℚ) ≤ 1/10)
      linarith
    refine ⟨?_, ?_, ?_, fun h => absurd h hd⟩
    · unfold calculateConfidence specConfidence
      rw [hne, if_neg hd]
      simp only [Bool.false_eq_true, if_false]
      rw [hsne]
      simp only [Bool.false_eq_true, if_false]
      rw [List.length_map]
      ring_nf
    · unfold calculateConfidence
      rw [hne]
      simp only [Bool.false_eq_true, if_false]
      exact round2_nonneg hx0
    · unfold calculateConfidence
      rw [hne]
      simp only [Bool.false_eq_true, if_false]
      refine round2_le_95 (min_le_right _ _)

/-- Counterexample to C3 as stated: a single document with explicit
similarity score 0 and an empty question also yields exactly 0.1, so 0.1
does not characterize the empty list; and an explicit negative score
drives the confidence below 0. -/
theorem confidence_c3_cex :
    calculateConfidence [zeroScoreDoc] [] = 1/10 ∧ ([zeroScoreDoc] : List RDoc) ≠ [] ∧
    calculateConfidence [negScoreDoc] [] < 0 := by
  refine ⟨?_, by simp, ?_⟩
  · norm_num [calculateConfidence, round2, roundHalfEven, zeroScoreDoc, min_def]
  · norm_num [calculateConfidence, round2, roundHalfEven, negScoreDoc, min_def]

/-- Witness for C3 at a concrete document list and question. -/
theorem confidence_c3_witness :
    (∀ d ∈ [zeroScoreDoc], 0 ≤ d.similarity.getD (1/2)) ∧
    (calculateConfidence [zeroScoreDoc] ['a'] = specConfidence [zeroScoreDoc] ['a'] ∧
      0 ≤ calculateConfidence [zeroScoreDoc] ['a'] ∧
      calculateConfidence [zeroScoreDoc] ['a'] ≤ 95/100 ∧
      ([zeroScoreDoc] = ([] : List RDoc) →
        calculateConfidence [zeroScoreDoc] ['a'] = 1/10)) :=
  ⟨by simp [zeroScoreDoc], confidence_c3 [zeroScoreDoc] ['a'] (by simp [zeroScoreDoc])⟩

/-- C5: every backend failure mode yields an AnswerResult with confidence
0 and no sources; the LiteLLM timeout, rate-limit (429) and
policy-rejection (400) cases each carry their own fixed non-empty message,
pairwise distinct; the Gemini backend maps any exception to its fixed
non-empty fallback. The generators are total functions, so no failure
raises to the caller. -/
theorem generator_fallback_c5 :
    (∀ (q : List Char) (docs : List RDoc) (code : Nat),
      (litellmGenerateResponse (.httpStatus code) q docs).confidence = 0 ∧
      (litellmGenerateResponse (.httpStatus code) q docs).source_articles = [] ∧
      (litellmGenerateResponse (.httpStatus code) q docs).content ≠ "") ∧
    (∀ (q : List Char) (docs : List RDoc),
      litellmGenerateResponse .timeout q docs = ⟨litellmTimeoutMsg, [], 0⟩ ∧
      litellmGenerateResponse (.httpStatus 429) q docs = ⟨litellmRateMsg, [], 0⟩ ∧
      litellmGenerateResponse (.httpStatus 400) q docs = ⟨litellmSecurityMsg, [], 0⟩ ∧
      litellmGenerateResponse .raises q docs = ⟨litellmDefaultMsg, [], 0⟩ ∧
      litellmGenerateResponse .badFormat q docs = ⟨litellmDefaultMsg, [], 0⟩) ∧
    (litellmTimeoutMsg ≠ litellmRateMsg ∧ litellmTimeoutMsg ≠ litellmSecurityMsg ∧
      litellmRateMsg ≠ litellmSecurityMsg ∧ litellmTimeoutMsg ≠ "" ∧
      litellmRateMsg ≠ "" ∧ litellmSecurityMsg ≠ "" ∧ litellmDefaultMsg ≠ "") ∧
    (∀ (q : List Char) (docs : List RDoc),
      geminiGenerateResponse .raises q docs = ⟨geminiFallbackMsg, [], 0⟩) ∧
    geminiFallbackMsg ≠ "" := by
  refine ⟨?_, ?_, ?_, ?_, by decide⟩
  · intro q docs code
    simp only [litellmGenerateResponse]
    by_cases h4 : code = 400
    · rw [if_pos h4]
      exact ⟨rfl, rfl, by decide⟩
    · rw [if_neg h4]
      by_cases h9 : code = 429
      · rw [if_pos h9]
        exact ⟨rfl, rfl, by decide⟩
      · rw [if_neg h9]
        exact ⟨rfl, rfl, by decide⟩
  · intro q docs
    exact ⟨rfl, rfl, rfl, rfl, rfl⟩
  · refine ⟨by decide, by decide, by decide, by decide, by decide, by decide, by decide⟩
  · intro q docs
    rfl

end WowBot

namespace WowBot

theorem appendNew_prefix : ∀ (ws acc : List (List Char)),
    ∃ rest, appendNew acc ws = acc ++ rest := by
  intro ws
  induction ws with
  | nil => exact fun acc => ⟨[], by simp [appendNew]⟩
  | cons w ws ih =>
    intro acc
    unfold appendNew
    by_cases h : w ∈ acc
    · rw [if_pos h]
      exact ih acc
    · rw [if_neg h]
      rcases ih (acc ++ [w]) with ⟨rest, hrest⟩
      exact ⟨[w] ++ rest, by rw [hrest, List.append_assoc]⟩

theorem dedupCI_nodup : ∀ (l seen : List (List Char)),
    ((dedupCaseInsensitive seen l).map toLowerLC).Nodup ∧
    ∀ x ∈ dedupCaseInsensitive seen l, toLowerLC x ∉ seen := by
  intro l
  induction l with
  | nil => exact fun seen => ⟨List.nodup_nil, by simp [dedupCaseInsensitive]⟩
  | cons item rest ih =>
    intro seen
    unfold dedupCaseInsensitive
    by_cases h : toLowerLC item ∉ seen ∧ ¬(pyStrip item).isEmpty
    · rw [if_pos h]
      rcases ih (toLowerLC item :: seen) with ⟨ih1, ih2⟩
      constructor
      · rw [List.map_cons]
        refine List.nodup_cons.2 ⟨?_, ih1⟩
        intro hmem
        rcases List.mem_map.1 hmem with ⟨y, hy, hye⟩
        exact (ih2 y hy) (by rw [hye]; exact List.mem_cons_self _ _)
      · intro x hx
        rcases List.mem_cons.1 hx with rfl | hx
        · exact h.1
        · intro hc
          exact (ih2 x hx) (List.mem_cons_of_mem _ hc)
    · rw [if_neg h]
      exact ih seen

/-- C7 (amended): for every query containing a non-whitespace character,
`_enhance_query` returns between 1 and 3 entries, the first equal to the
query, with no case-insensitive duplicates. (A whitespace-only query
yields the empty list — see the counterexample.) -/
theorem query_expand_c7 (query : List Char) (h : pyStrip query ≠ []) :
    1 ≤ (enhanceQuery query).length ∧ (enhanceQuery query).length ≤ 3 ∧
    (enhanceQuery query).head? = some query ∧
    ((enhanceQuery query).map toLowerLC).Nodup := by
  unfold enhanceQuery
  dsimp only
  rcases appendNew_prefix ((pySplit (toLowerLC query)).filter (fun w => 3 < w.length))
    [query] with ⟨r1, hr1⟩
  rw [hr1]
  have hcons : ∃ r2, (if 1 <
        ((pySplit (toLowerLC query)).filter (fun w => w ∉ stopWords)).length then
      if List.intercalate [' ']
          ((pySplit (toLowerLC query)).filter (fun w => w ∉ stopWords)) ∈
            [query] ++ r1 then
        [query] ++ r1
      else ([query] ++ r1) ++
        [List.intercalate [' ']
          ((pySplit (toLowerLC query)).filter (fun w => w ∉ stopWords))]
    else [query] ++ r1) = query :: r2 := by
    split
    · split
      · exact ⟨r1, rfl⟩
      · refine ⟨r1 ++ [List.intercalate [' ']
          ((pySplit (toLowerLC query)).filter (fun w => w ∉ stopWords))], by simp⟩
    · exact ⟨r1, rfl⟩
  rcases hcons with ⟨r2, hr2⟩
  rw [hr2]
  have hkeep : dedupCaseInsensitive [] (query :: r2) =
      query :: dedupCaseInsensitive [toLowerLC query] r2 := by
    rw [dedupCaseInsensitive]
    rw [if_pos ⟨List.not_mem_nil _, by
      rw [List.isEmpty_eq_false.2 h]; exact Bool.false_ne_true⟩]
  rw [hkeep]
  rcases dedupCI_nodup r2 [toLowerLC query] with ⟨hn1, hn2⟩
  rw [show (3:Nat) = 2 + 1 from rfl, List.take_succ_cons]
  refine ⟨by simp, ?_, rfl, ?_⟩
  · rw [List.length_cons, List.length_take]
    omega
  · rw [List.map_cons]
    refine List.nodup_cons.2 ⟨?_, ?_⟩
    · intro hmem
      rcases List.mem_map.1 hmem with ⟨y, hy, hye⟩
      have hyD := List.take_sublist 2 _ |>.mem hy
      exact (hn2 y hyD) (by rw [hye]; exact List.mem_cons_self _ _)
    · rw [List.map_take]
      exact List.Nodup.sublist (List.take_sublist _ _) hn1

/-- Counterexample to C7 as stated: the empty query and a whitespace-only
query both yield zero entries (the whitespace-only entry is dropped by the
final filter), so expand does not always return 1 to 3 entries headed by
the query. -/
theorem query_expand_c7_cex :
    enhanceQuery [] = [] ∧ enhanceQuery [' '] = [] ∧
    ¬ 1 ≤ (enhanceQuery [' ']).length := ⟨by decide, by decide, by decide⟩

/-- Witness for C7 at the query "test query". -/
theorem query_expand_c7_witness :
    pyStrip "test query".toList ≠ [] ∧
    (1 ≤ (enhanceQuery "test query".toList).length ∧
      (enhanceQuery "test query".toList).length ≤ 3 ∧
      (enhanceQuery "test query".toList).head? = some "test query".toList ∧
      ((enhanceQuery "test query".toList).map toLowerLC).Nodup) :=
  ⟨by decide, query_expand_c7 "test query".toList (by decide)⟩

theorem collectResults_ok {searchFn : List Char → Except Unit (List Hit)} :
    ∀ {qs : List (List Char)}, (∀ q ∈ qs, exceptOk (searchFn q) = true) →
      collectResults searchFn qs = .ok (qs.map (fun q => (hitsOf (searchFn q), q))) := by
  intro qs
  induction qs with
  | nil => intro _; rfl
  | cons q qs ih =>
    intro h
    have hq := h q (List.mem_cons_self _ _)
    unfold collectResults
    cases hsq : searchFn q with
    | error e => rw [hsq] at hq; simp [exceptOk] at hq
    | ok hits =>
      rw [ih (fun x hx => h x (List.mem_cons_of_mem _ hx))]
      simp [hitsOf, hsq]

theorem collectResults_error {searchFn : List Char → Except Unit (List Hit)} :
    ∀ {qs : List (List Char)}, (∃ q ∈ qs, exceptOk (searchFn q) = false) →
      ∃ e, collectResults searchFn qs = .error e := by
  intro qs
  induction qs with
  | nil => intro h; simp at h
  | cons q qs ih =>
    intro h
    unfold collectResults
    cases hsq : searchFn q with
    | error e => exact ⟨e, rfl⟩
    | ok hits =>
      have : ∃ x ∈ qs, exceptOk (searchFn x) = false := by
        rcases h with ⟨x, hx, hxf⟩
        rcases List.mem_cons.1 hx with rfl | hx
        · rw [hsq] at hxf; simp [exceptOk] at hxf
        · exact ⟨x, hx, hxf⟩
      rcases ih this with ⟨e, he⟩
      rw [he]
      exact ⟨e, rfl⟩

theorem dedupById_mem : ∀ {l : List RDoc} {seen : List String} {d : RDoc},
    d ∈ dedupById seen l → d ∈ l := by
  intro l
  induction l with
  | nil => intro seen d h; simp [dedupById] at h
  | cons x xs ih =>
    intro seen d h
    unfold dedupById at h
    by_cases hx : x.id ∈ seen
    · rw [if_pos hx] at h
      exact List.mem_cons_of_mem _ (ih h)
    · rw [if_neg hx] at h
      rcases List.mem_cons.1 h with rfl | h
      · exact List.mem_cons_self _ _
      · exact List.mem_cons_of_mem _ (ih h)

theorem dedupById_nodup : ∀ (l : List RDoc) (seen : List String),
    ((dedupById seen l).map RDoc.id).Nodup ∧
    ∀ d ∈ dedupById seen l, d.id ∉ seen := by
  intro l
  induction l with
  | nil => exact fun seen => ⟨List.nodup_nil, by simp [dedupById]⟩
  | cons x xs ih =>
    intro seen
    unfold dedupById
    by_cases hx : x.id ∈ seen
    · rw [if_pos hx]
      exact ih seen
    · rw [if_neg hx]
      rcases ih (x.id :: seen) with ⟨ih1, ih2⟩
      refine ⟨?_, ?_⟩
      · rw [List.map_cons]
        refine List.nodup_cons.2 ⟨?_, ih1⟩
        intro hmem
        rcases List.mem_map.1 hmem with ⟨y, hy, hye⟩
        exact (ih2 y hy) (by rw [hye]; exact List.mem_cons_self _ _)
      · intro d hd
        rcases List.mem_cons.1 hd with rfl | hd
        · exact hx
        · intro hc
          exact (ih2 d hd) (List.mem_cons_of_mem _ hc)

theorem dedupById_first : ∀ {l : List RDoc} {seen : List String} {d : RDoc},
    d ∈ dedupById seen l →
      ∃ pre post, l = pre ++ d :: post ∧
        ∀ e ∈ pre, e.id ∉ seen → e.id ≠ d.id := by
  intro l
  induction l with
  | nil => intro seen d h; simp [dedupById] at h
  | cons x xs ih =>
    intro seen d h
    have hdseen : d.id ∉ seen := (dedupById_nodup (x :: xs) seen).2 d h
    unfold dedupById at h
    by_cases hx : x.id ∈ seen
    · rw [if_pos hx] at h
      rcases ih h with ⟨pre, post, hpp, hfirst⟩
      refine ⟨x :: pre, post, by rw [hpp]; rfl, ?_⟩
      intro e he hens
      rcases List.mem_cons.1 he with rfl | he
      · exact absurd hx (by rwa [])
      · exact hfirst e he hens
    · rw [if_neg hx] at h
      rcases List.mem_cons.1 h with rfl | h
      · exact ⟨[], xs, rfl, by simp⟩
      · have hdseen2 : d.id ∉ x.id :: seen := (dedupById_nodup xs _).2 d h
        rcases ih h with ⟨pre, post, hpp, hfirst⟩
        refine ⟨x :: pre, post, by rw [hpp]; rfl, ?_⟩
        intro e he hens
        rcases List.mem_cons.1 he with rfl | he
        · intro hc
          exact hdseen2 (by rw [← hc]; exact List.mem_cons_self _ _)
        · by_cases hex : e.id = x.id
          · intro hc
            exact hdseen2 (by rw [← hc, hex]; exact List.mem_cons_self _ _)
          · exact hfirst e he (by
              intro hc
              rcases List.mem_cons.1 hc with h1 | h1
              · exact hex h1
              · exact hens h1)

/-- C2 (success path): with every expanded-query search succeeding,
`search_similar` returns at most k documents, sorted by similarity score
descending, with no duplicate ids, and each returned document is the
first occurrence of its id in the concatenation of the per-query tagged
hits (so it carries the matched_query of the query that produced it). -/
theorem retrieval_rank_c2 (searchFn : List Char → Except Unit (List Hit))
    (query : List Char) (k : Nat)
    (h : ∀ q ∈ enhanceQuery query, exceptOk (searchFn q) = true) :
    (searchSimilar searchFn query k).length ≤ k ∧
    (searchSimilar searchFn query k).Pairwise (fun x y => scoreOf y ≤ scoreOf x) ∧
    ((searchSimilar searchFn query k).map RDoc.id).Nodup ∧
    ∀ d ∈ searchSimilar searchFn query k,
      ∃ pre post, allTagged searchFn query = pre ++ d :: post ∧
        ∀ e ∈ pre, e.id ≠ d.id := by
  have heq : searchSimilar searchFn query k =
      ((dedupById [] (allTagged searchFn query)).mergeSort
        (fun x y => decide (scoreOf y ≤ scoreOf x))).take k := by
    unfold searchSimilar
    rw [collectResults_ok h]
    dsimp only
    rw [List.flatMap_map]
    rfl
  have htrans : ∀ (a b c : RDoc),
      (fun x y => decide (scoreOf y ≤ scoreOf x)) a b →
      (fun x y => decide (scoreOf y ≤ scoreOf x)) b c →
      (fun x y => decide (scoreOf y ≤ scoreOf x)) a c := by
    intro a b c hab hbc
    simp only [decide_eq_true_eq] at *
    exact le_trans hbc hab
  have htotal : ∀ (a b : RDoc),
      ((fun x y => decide (scoreOf y ≤ scoreOf x)) a b ||
       (fun x y => decide (scoreOf y ≤ scoreOf x)) b a) := by
    intro a b
    rcases le_total (scoreOf a) (scoreOf b) with hab | hab <;>
      simp [hab]
  have hperm := List.mergeSort_perm (dedupById [] (allTagged searchFn query))
    (fun x y => decide (scoreOf y ≤ scoreOf x))
  refine ⟨?_, ?_, ?_, ?_⟩
  · rw [heq, List.length_take]
    exact Nat.min_le_left _ _
  · rw [heq]
    refine List.Pairwise.sublist (List.take_sublist _ _) ?_
    have hs := List.sorted_mergeSort htrans htotal
      (dedupById [] (allTagged searchFn query))
    exact hs.imp (fun hxy => of_decide_eq_true hxy)
  · rw [heq]
    have hnd : ((dedupById [] (allTagged searchFn query)).map RDoc.id).Nodup :=
      (dedupById_nodup _ _).1
    have hnd2 : (((dedupById [] (allTagged searchFn query)).mergeSort
        (fun x y => decide (scoreOf y ≤ scoreOf x))).map RDoc.id).Nodup :=
      ((hperm.map RDoc.id).nodup_iff).2 hnd
    rw [List.map_take]
    exact List.Nodup.sublist (List.take_sublist _ _) hnd2
  · intro d hd
    rw [heq] at hd
    have hd2 : d ∈ (dedupById [] (allTagged searchFn query)).mergeSort
        (fun x y => decide (scoreOf y ≤ scoreOf x)) :=
      (List.take_sublist _ _).mem hd
    have hd3 : d ∈ dedupById [] (allTagged searchFn query) :=
      List.mem_mergeSort.1 hd2
    rcases dedupById_first hd3 with ⟨pre, post, hpp, hfirst⟩
    exact ⟨pre, post, hpp, fun e he => hfirst e he (List.not_mem_nil _)⟩

/-- Witness for C2 at a concrete search function, query and k. -/
theorem retrieval_rank_c2_witness :
    (∀ q ∈ enhanceQuery "test query".toList, exceptOk (okSearch q) = true) ∧
    ((searchSimilar okSearch "test query".toList 2).length ≤ 2 ∧
      (searchSimilar okSearch "test query".toList 2).Pairwise
        (fun x y => scoreOf y ≤ scoreOf x) ∧
      ((searchSimilar okSearch "test query".toList 2).map RDoc.id).Nodup ∧
      ∀ d ∈ searchSimilar okSearch "test query".toList 2,
        ∃ pre post, allTagged okSearch "test query".toList = pre ++ d :: post ∧
          ∀ e ∈ pre, e.id ≠ d.id) :=
  ⟨by decide, retrieval_rank_c2 okSearch "test query".toList 2 (by decide)⟩

/-- C4 (amended): an exception in any single expanded-query search aborts
the whole retrieval, which returns the empty list (the exception is
logged, not re-raised) — hits already gathered from other variants are
discarded. -/
theorem retrieval_error_c4 (searchFn : List Char → Except Unit (List Hit))
    (query : List Char) (k : Nat)
    (h : ∃ q ∈ enhanceQuery query, exceptOk (searchFn q) = false) :
    searchSimilar searchFn query k = [] := by
  rcases collectResults_error h with ⟨e, he⟩
  unfold searchSimilar
  rw [he]

/-- Counterexample to C4 as stated: for the query "test query" the first
variant's search succeeds with a hit, the second variant ("test") raises,
and retrieval returns the empty list instead of the successful variant's
hits. -/
theorem retrieval_error_c4_cex :
    exceptOk (failingSearch "test query".toList) = true ∧
    hitsOf (failingSearch "test query".toList) ≠ [] ∧
    "test".toList ∈ enhanceQuery "test query".toList ∧
    exceptOk (failingSearch "test".toList) = false ∧
    searchSimilar failingSearch "test query".toList 5 = [] :=
  ⟨by decide, by decide, by decide, by decide, by decide⟩

/-- Witness for the amended C4 at a concrete failing search function. -/
theorem retrieval_error_c4_witness :
    (∃ q ∈ enhanceQuery "test query".toList, exceptOk (failingSearch q) = false) ∧
    searchSimilar failingSearch "test query".toList 5 = [] :=
  ⟨by decide, retrieval_error_c4 failingSearch "test query".toList 5 (by decide)⟩

theorem processArticleUrl_fresh {env : CrawlEnv} {cache : Finset String}
    {url : String} (h : url ∉ cache) :
    processArticleUrl env cache url = (classifyUrl env url, insert url cache) := by
  unfold processArticleUrl classifyUrl
  rw [if_neg h]
  cases env.extract url with
  | raises => rfl
  | noArticle => rfl
  | article aurl content =>
    dsimp only
    cases env.existingContent aurl with
    | none => rfl
    | some existing =>
      dsimp only
      by_cases hc : existing ≠ content
      · rw [if_pos hc, if_pos hc]
      · rw [if_neg hc, if_neg hc]

theorem runUrls_length (env : CrawlEnv) :
    ∀ (l : List String) (cache : Finset String),
      (runUrls env cache l).1.length = l.length := by
  intro l
  induction l with
  | nil => intro cache; rfl
  | cons u rest ih =>
    intro cache
    unfold runUrls
    dsimp only
    rw [List.length_cons, ih]
    rfl

theorem runUrls_fresh (env : CrawlEnv) :
    ∀ (l : List String) (cache : Finset String), l.Nodup →
      (∀ u ∈ l, u ∉ cache) →
      (runUrls env cache l).1 = l.map (classifyUrl env) ∧
      ∀ u, u ∈ l ∨ u ∈ cache → u ∈ (runUrls env cache l).2 := by
  intro l
  induction l with
  | nil =>
    intro cache _ _
    exact ⟨rfl, fun u hu => by
      rcases hu with hu | hu
      · simp at hu
      · exact hu⟩
  | cons w rest ih =>
    intro cache hnd hfresh
    have hw : w ∉ cache := hfresh w (List.mem_cons_self _ _)
    have hrest : ∀ u ∈ rest, u ∉ insert w cache := by
      intro u hu
      rw [Finset.mem_insert]
      push_neg
      exact ⟨fun hc => (List.nodup_cons.1 hnd).1 (hc ▸ hu),
        hfresh u (List.mem_cons_of_mem _ hu)⟩
    rcases ih (insert w cache) (List.nodup_cons.1 hnd).2 hrest with ⟨ih1, ih2⟩
    unfold runUrls
    dsimp only
    rw [processArticleUrl_fresh hw]
    refine ⟨by rw [List.map_cons, ih1], ?_⟩
    intro u hu
    rcases hu with hu | hu
    · rcases List.mem_cons.1 hu with rfl | hu
      · exact ih2 u (Or.inr (Finset.mem_insert_self _ _))
      · exact ih2 u (Or.inl hu)
    · exact ih2 u (Or.inr (Finset.mem_insert_of_mem hu))

theorem count_three_le (l : List String) :
    l.count "processed" + l.count "updated" + l.count "failed" ≤ l.length := by
  induction l with
  | nil => simp
  | cons s rest ih =>
    simp only [List.count_cons, List.length_cons]
    have hsum : (if s == ("processed" : String) then 1 else 0) +
        (if s == ("updated" : String) then 1 else 0) +
        (if s == ("failed" : String) then 1 else 0) ≤ 1 := by
      by_cases h1 : s = "processed"
      · subst h1; decide
      · by_cases h2 : s = "updated"
        · subst h2; decide
        · by_cases h3 : s = "failed"
          · subst h3; decide
          · rw [if_neg (by simp only [beq_iff_eq]; exact h1),
              if_neg (by simp only [beq_iff_eq]; exact h2),
              if_neg (by simp only [beq_iff_eq]; exact h3)]
            decide
    omega

/-- C10: after a crawl whose fan-out completes, the processed, updated and
failed counters (each counting a disjoint subset of the new URLs' statuses)
sum to at most the number of discovered URLs. -/
theorem crawl_counts_c10 (env : CrawlEnv) (cache : Finset String)
    (articleUrls : List String) :
    (crawlExecute env cache articleUrls).1.articles_processed +
      (crawlExecute env cache articleUrls).1.articles_updated +
      (crawlExecute env cache articleUrls).1.articles_failed ≤
    (crawlExecute env cache articleUrls).1.articles_discovered := by
  unfold crawlExecute
  dsimp only
  calc (runUrls env cache (articleUrls.filter (fun u => decide (u ∉ cache)))).1.count
          "processed" +
        (runUrls env cache (articleUrls.filter (fun u => decide (u ∉ cache)))).1.count
          "updated" +
        (runUrls env cache (articleUrls.filter (fun u => decide (u ∉ cache)))).1.count
          "failed"
      ≤ (runUrls env cache (articleUrls.filter (fun u => decide (u ∉ cache)))).1.length :=
        count_three_le _
    _ = (articleUrls.filter (fun u => decide (u ∉ cache))).length := runUrls_length env _ _
    _ ≤ articleUrls.length := List.length_filter_le _ _

theorem count_failed_unique (f : String → String) :
    ∀ (l : List String) (u : String), l.Nodup → u ∈ l → f u = "failed" →
      (∀ v ∈ l, v ≠ u → f v ≠ "failed") → (l.map f).count "failed" = 1 := by
  intro l
  induction l with
  | nil => intro u _ hu; simp at hu
  | cons w rest ih =>
    intro u hnd hu hfu hothers
    rw [List.map_cons, List.count_cons]
    rcases List.mem_cons.1 hu with rfl | hu
    · have hz : (rest.map f).count "failed" = 0 := by
        rw [List.count_eq_zero]
        intro hc
        rcases List.mem_map.1 hc with ⟨v, hv, hfv⟩
        exact hothers v (List.mem_cons_of_mem _ hv)
          (fun he => (List.nodup_cons.1 hnd).1 (he ▸ hv)) hfv
      rw [hz, hfu]
      decide
    · have hwu : w ≠ u := fun he => (List.nodup_cons.1 hnd).1 (he ▸ hu)
      have hfw : f w ≠ "failed" := hothers w (List.mem_cons_self _ _) hwu
      rw [ih u (List.nodup_cons.1 hnd).2 hu hfu
        (fun v hv hvu => hothers v (List.mem_cons_of_mem _ hv) hvu)]
      rw [if_neg (by simp only [beq_iff_eq]; exact hfw)]

/-- C6: when exactly one new URL's extraction raises and every other new
URL extracts without failing, the crawl completes with articles_failed
exactly 1, every other new URL classified processed, updated or skipped,
the discovered count intact, and the failing URL marked in the cache. -/
theorem crawl_isolation_c6 (env : CrawlEnv) (cache : Finset String)
    (articleUrls : List String) (u : String)
    (hnd : articleUrls.Nodup)
    (hu : u ∈ articleUrls.filter (fun x => decide (x ∉ cache)))
    (hraise : env.extract u = .raises)
    (hothers : ∀ v ∈ articleUrls.filter (fun x => decide (x ∉ cache)), v ≠ u →
      env.extract v ≠ .raises ∧ env.extract v ≠ .noArticle) :
    (crawlExecute env cache articleUrls).1.articles_failed = 1 ∧
    (crawlExecute env cache articleUrls).1.articles_discovered = articleUrls.length ∧
    (∀ v ∈ articleUrls.filter (fun x => decide (x ∉ cache)), v ≠ u →
      classifyUrl env v = "processed" ∨ classifyUrl env v = "updated" ∨
        classifyUrl env v = "skipped") ∧
    u ∈ (crawlExecute env cache articleUrls).2 := by
  have hndnew : (articleUrls.filter (fun x => decide (x ∉ cache))).Nodup :=
    hnd.filter _
  have hfresh : ∀ v ∈ articleUrls.filter (fun x => decide (x ∉ cache)), v ∉ cache := by
    intro v hv
    have hp := List.of_mem_filter hv
    simpa using hp
  rcases runUrls_fresh env (articleUrls.filter (fun x => decide (x ∉ cache)))
    cache hndnew hfresh with ⟨h1, h2⟩
  have hclass : ∀ v ∈ articleUrls.filter (fun x => decide (x ∉ cache)), v ≠ u →
      classifyUrl env v = "processed" ∨ classifyUrl env v = "updated" ∨
        classifyUrl env v = "skipped" := by
    intro v hv hvu
    rcases hothers v hv hvu with ⟨hr, hn⟩
    unfold classifyUrl
    cases hev : env.extract v with
    | raises => exact absurd hev hr
    | noArticle => exact absurd hev hn
    | article aurl content =>
      dsimp only
      cases env.existingContent aurl with
      | none => exact Or.inl rfl
      | some existing =>
        dsimp only
        by_cases hc : existing ≠ content
        · rw [if_pos hc]
          exact Or.inr (Or.inl rfl)
        · rw [if_neg hc]
          exact Or.inr (Or.inr rfl)
  have hclassu : classifyUrl env u = "failed" := by
    unfold classifyUrl
    rw [hraise]
  refine ⟨?_, rfl, hclass, ?_⟩
  · unfold crawlExecute
    dsimp only
    rw [h1]
    refine count_failed_unique (classifyUrl env) _ u hndnew hu hclassu ?_
    intro v hv hvu
    rcases hclass v hv hvu with hc | hc | hc <;> rw [hc] <;> decide
  · unfold crawlExecute
    dsimp only
    exact h2 u (Or.inl hu)

/-- Witness for C6 at a concrete two-URL crawl where "u2" raises. -/
theorem crawl_isolation_c6_witness :
    ((["u1", "u2"] : List String).Nodup ∧
      "u2" ∈ (["u1", "u2"] : List String).filter
        (fun x => decide (x ∉ (∅ : Finset String))) ∧
      sampleEnv.extract "u2" = .raises ∧
      (∀ v ∈ (["u1", "u2"] : List String).filter
          (fun x => decide (x ∉ (∅ : Finset String))), v ≠ "u2" →
        sampleEnv.extract v ≠ .raises ∧ sampleEnv.extract v ≠ .noArticle)) ∧
    ((crawlExecute sampleEnv ∅ ["u1", "u2"]).1.articles_failed = 1 ∧
      (crawlExecute sampleEnv ∅ ["u1", "u2"]).1.articles_discovered =
        (["u1", "u2"] : List String).length ∧
      (∀ v ∈ (["u1", "u2"] : List String).filter
          (fun x => decide (x ∉ (∅ : Finset String))), v ≠ "u2" →
        classifyUrl sampleEnv v = "processed" ∨ classifyUrl sampleEnv v = "updated" ∨
          classifyUrl sampleEnv v = "skipped") ∧
      "u2" ∈ (crawlExecute sampleEnv ∅ ["u1", "u2"]).2) :=
  ⟨⟨by decide, by decide, by decide, by decide⟩,
    crawl_isolation_c6 sampleEnv ∅ ["u1", "u2"] "u2"
      (by decide) (by decide) (by decide) (by decide)⟩

end WowBot
